import Mathlib

/-!
Verification development for the scene file server
(`scene_file_server.py`): a shallow embedding of the directory state,
the index builder, the name sanitizer, the HTTP POST handler and the
background index-maintainer loop, together with proofs of the spec's
claims about them.
-/

namespace SceneFileServer

/-! ## Filesystem model

The directory is flat.  We model it as a list of entries, each with a
name, a kind (regular file or subdirectory, so that the `is_file`
filter of `list_all_files` is meaningful) and a content string.  The
list order stands for the (unspecified) order in which `iterdir`
yields entries; every consumer in the program sorts, so the order is
immaterial to the observable results. -/

inductive FKind where
  | file
  | dir
deriving DecidableEq

structure FSEntry where
  name : String
  kind : FKind
  content : String
deriving DecidableEq

abbrev DirState := List FSEntry

/-- `Path(name).write_text(content)`: overwrite the entry named `name`
if present, otherwise create it.  The model treats the overwrite as
atomic, as the spec's concurrency section assumes. -/
def writeFile (d : DirState) (name content : String) : DirState :=
  if d.any (fun e => e.name == name) then
    d.map (fun e => if e.name == name then ⟨name, FKind.file, content⟩ else e)
  else
    d ++ [⟨name, FKind.file, content⟩]

/-- Reading an entry's content (first entry with the given name). -/
def readFile (d : DirState) (name : String) : Option String :=
  (d.find? (fun e => e.name == name)).map (fun e => e.content)

/-! ## `pathlib` name semantics

CPython's `PurePath.suffix` and `PurePath.stem` for a single path
component `name`: let `i` be the index of the last dot; the suffix is
`name[i:]` when `0 < i < len(name) - 1`, else empty (so a leading dot
or a trailing dot yields no suffix), and the stem is the rest. -/

/-- Index of the last occurrence of `c` in `l`, if any. -/
def rfindIdx (l : List Char) (c : Char) : Option Nat :=
  match (l.reverse).findIdx? (fun x => x == c) with
  | some j => some (l.length - 1 - j)
  | none => none

/-- `PurePath(s).suffix` (CPython semantics for a flat name). -/
def pySuffix (s : String) : String :=
  match rfindIdx s.data '.' with
  | some i => if 0 < i ∧ i < s.data.length - 1 then ⟨s.data.drop i⟩ else ""
  | none => ""

/-- `PurePath(s).stem` (CPython semantics for a flat name). -/
def pyStem (s : String) : String :=
  match rfindIdx s.data '.' with
  | some i => if 0 < i ∧ i < s.data.length - 1 then ⟨s.data.take i⟩ else s
  | none => s

/-- Python `str.lower` restricted to ASCII case mapping, which is
faithful for every comparison the program performs (the target of the
comparison, `".txt"`, is ASCII, and no non-ASCII character lowercases
to an ASCII one). -/
def pyLower (s : String) : String :=
  ⟨s.data.map Char.toLower⟩

/-! ## String comparison

Python compares strings lexicographically by code point.  We use an
executable boolean comparison (structural recursion, so the kernel can
evaluate sorts on concrete directories); `strLe_iff_le` below proves
it agrees with the library's lexicographic `≤` on `String`. -/

def strLeB : List Char → List Char → Bool
  | [], _ => true
  | _ :: _, [] => false
  | c :: cs, d :: ds => if c = d then strLeB cs ds else decide (c < d)

/-- Lexicographic code-point `≤` on strings, as Python compares them. -/
def strLe (a b : String) : Prop :=
  strLeB a.data b.data = true

instance : DecidableRel strLe :=
  fun a b => inferInstanceAs (Decidable (strLeB a.data b.data = true))

/-! ## Index builder (`list_all_files`, `write_all_scene_names`) -/

/-- The filter of `list_all_files`:
`p.is_file() and p.suffix.lower() == ".txt" and p.name != "index.txt"`. -/
def sceneFilter (e : FSEntry) : Bool :=
  decide (e.kind = FKind.file) && (pyLower (pySuffix e.name) == ".txt")
    && !(e.name == "index.txt")

/-- `list_all_files(base_dir)`: stems of the matching entries, sorted.
Python's `sorted` is a stable ascending sort by the lexicographic `<`
on strings; `insertionSort` with `strLe` computes the same list. -/
def list_all_files (d : DirState) : List String :=
  List.insertionSort strLe ((d.filter sceneFilter).map (fun e => pyStem e.name))

/-- `"\n".join(names) + ("\n" if names else "")`. -/
def indexContent (names : List String) : String :=
  String.intercalate "\n" names ++ (if names.isEmpty then "" else "\n")

/-- `write_all_scene_names(base_dir)`: recompute the listing and
overwrite `index.txt` with it. -/
def write_all_scene_names (d : DirState) : DirState :=
  writeFile d "index.txt" (indexContent (list_all_files d))

/-! ## Name sanitizer (lines 72-83 of `do_POST`) -/

/-- The character class of the sanitizer's regex: `[A-Za-z0-9_\-\. ]`. -/
def allowedChar (c : Char) : Bool :=
  decide ('A' ≤ c ∧ c ≤ 'Z') || decide ('a' ≤ c ∧ c ≤ 'z')
    || decide ('0' ≤ c ∧ c ≤ '9') || c == '_' || c == '-' || c == '.' || c == ' '

/-- `re.sub(r"[^A-Za-z0-9_\-\. ]", "_", name)`: the pattern matches one
character at a time, so the substitution is a character map. -/
def reSub (s : String) : String :=
  ⟨s.data.map (fun c => if allowedChar c then c else '_')⟩

/-- CPython's `Py_UNICODE_ISSPACE` set, which `str.strip()` (and
`int()`) trims. -/
def pyIsSpace (c : Char) : Bool :=
  (decide (0x09 ≤ c.toNat) && decide (c.toNat ≤ 0x0d))
    || (decide (0x1c ≤ c.toNat) && decide (c.toNat ≤ 0x1f))
    || c.toNat == 0x20 || c.toNat == 0x85 || c.toNat == 0xa0 || c.toNat == 0x1680
    || (decide (0x2000 ≤ c.toNat) && decide (c.toNat ≤ 0x200a))
    || c.toNat == 0x2028 || c.toNat == 0x2029 || c.toNat == 0x202f
    || c.toNat == 0x205f || c.toNat == 0x3000

/-- Python `str.strip()`: drop leading and trailing whitespace. -/
def pyStrip (s : String) : String :=
  ⟨(((s.data.dropWhile pyIsSpace).reverse.dropWhile pyIsSpace).reverse : List Char)⟩

/-- `safe_name.replace("/", "_").replace("\\", "_")` (both patterns are
single characters, so this is a character map). -/
def replaceSeps (s : String) : String :=
  ⟨s.data.map (fun c => if c == '/' then '_' else if c == '\\' then '_' else c)⟩

/-- Python `str.endswith` for a fixed literal suffix. -/
def pyEndsWith (s suffix : String) : Bool :=
  suffix.data.isSuffixOf s.data

/-- The sanitization pipeline of `do_POST` (lines 72-83): substitute
disallowed characters, strip, replace path separators; reject when
empty; append `".txt"` unless the name already ends with it
(case-sensitive check). `none` models the 400 "Empty or invalid
FileName" rejection. -/
def sanitize (name : String) : Option String :=
  let safe1 := pyStrip (reSub name)
  let safe2 := replaceSeps safe1
  if safe2.data.isEmpty then none
  else some (if pyEndsWith safe2 ".txt" then safe2 else safe2 ++ ".txt")

/-! ## JSON values and `json.loads`

JSON numbers are modelled as integers; fractional and exponent forms
(which Python would parse as floats) are outside the model, and the
parser rejects them.  Objects are association lists in source order;
`jlookup` implements the last-key-wins semantics of a Python dict
built by `json.loads`. -/

inductive JValue where
  | jstr (s : String)
  | jnum (n : Int)
  | jbool (b : Bool)
  | jnull
  | jarr (items : List JValue)
  | jobj (fields : List (String × JValue))

/-- Dict lookup: the last binding of the key wins, as when `json.loads`
builds a dict from duplicate keys. -/
def jlookup (fields : List (String × JValue)) (k : String) : Option JValue :=
  match fields with
  | [] => none
  | (k2, v) :: rest =>
    match jlookup rest k with
    | some v2 => some v2
    | none => if k2 == k then some v else none

/-- JSON whitespace (space, tab, newline, carriage return). -/
def jsonWs (c : Char) : Bool :=
  c == ' ' || c == '\t' || c == '\n' || c == '\r'

def skipWs (l : List Char) : List Char :=
  match l with
  | c :: rest => if jsonWs c then skipWs rest else c :: rest
  | [] => []

def hexVal (c : Char) : Option Nat :=
  if '0' ≤ c ∧ c ≤ '9' then some (c.toNat - '0'.toNat)
  else if 'a' ≤ c ∧ c ≤ 'f' then some (c.toNat - 'a'.toNat + 10)
  else if 'A' ≤ c ∧ c ≤ 'F' then some (c.toNat - 'A'.toNat + 10)
  else none

/-- Body of a JSON string literal after the opening quote.  Handles the
escape sequences of RFC 8259; unescaped control characters are
rejected (strict mode, as `json.loads` defaults to).  A `\uXXXX`
escape becomes the character with that code (surrogate-pair joining is
outside the model). -/
def parseJString : List Char → Option (List Char × List Char)
  | [] => none
  | '"' :: rest => some ([], rest)
  | '\\' :: esc =>
    match esc with
    | 'u' :: h1 :: h2 :: h3 :: h4 :: rest =>
      match hexVal h1, hexVal h2, hexVal h3, hexVal h4 with
      | some a, some b, some c, some d =>
        (parseJString rest).map
          (fun p => (Char.ofNat (((a * 16 + b) * 16 + c) * 16 + d) :: p.1, p.2))
      | _, _, _, _ => none
    | e :: rest =>
      let c? : Option Char :=
        if e = '"' then some '"'
        else if e = '\\' then some '\\'
        else if e = '/' then some '/'
        else if e = 'b' then some '\x08'
        else if e = 'f' then some '\x0c'
        else if e = 'n' then some '\n'
        else if e = 'r' then some '\r'
        else if e = 't' then some '\t'
        else none
      match c? with
      | some c => (parseJString rest).map (fun p => (c :: p.1, p.2))
      | none => none
    | [] => none
  | c :: rest =>
    if c.toNat < 0x20 then none
    else (parseJString rest).map (fun p => (c :: p.1, p.2))

def digitVal (c : Char) : Option Nat :=
  if '0' ≤ c ∧ c ≤ '9' then some (c.toNat - '0'.toNat) else none

/-- Decimal digit run for the JSON number grammar (integer part only;
a following `.`, `e` or `E` makes the whole parse fail, see above). -/
def parseJDigits (acc : Nat) : List Char → (Nat × List Char)
  | [] => (acc, [])
  | c :: rest =>
    match digitVal c with
    | some v => parseJDigits (acc * 10 + v) rest
    | none => (acc, c :: rest)

def parseJNumber (l : List Char) : Option (Int × List Char) :=
  let core : List Char → Option (Int × List Char) := fun m =>
    match m with
    | c :: rest =>
      match digitVal c with
      | some v =>
        let p := parseJDigits v rest
        match p.2 with
        | '.' :: _ => none
        | 'e' :: _ => none
        | 'E' :: _ => none
        | _ => some ((p.1 : Int), p.2)
      | none => none
    | [] => none
  match l with
  | '-' :: rest => (core rest).map (fun p => (-p.1, p.2))
  | _ => core l

mutual

def parseJValue : Nat → List Char → Option (JValue × List Char)
  | 0, _ => none
  | fuel + 1, l =>
    match skipWs l with
    | 'n' :: 'u' :: 'l' :: 'l' :: rest => some (JValue.jnull, rest)
    | 't' :: 'r' :: 'u' :: 'e' :: rest => some (JValue.jbool true, rest)
    | 'f' :: 'a' :: 'l' :: 's' :: 'e' :: rest => some (JValue.jbool false, rest)
    | '"' :: rest => (parseJString rest).map (fun p => (JValue.jstr ⟨p.1⟩, p.2))
    | '[' :: rest => parseJItems fuel rest
    | '\x7b' :: rest => parseJFields fuel rest
    | m => (parseJNumber m).map (fun p => (JValue.jnum p.1, p.2))

/-- Array items after the opening bracket. -/
def parseJItems : Nat → List Char → Option (JValue × List Char)
  | 0, _ => none
  | fuel + 1, l =>
    match skipWs l with
    | ']' :: rest => some (JValue.jarr [], rest)
    | m =>
      match parseJValue fuel m with
      | some (v, r1) => parseJItemsTail fuel r1 [v]
      | none => none

def parseJItemsTail : Nat → List Char → List JValue → Option (JValue × List Char)
  | 0, _, _ => none
  | fuel + 1, l, acc =>
    match skipWs l with
    | ']' :: rest => some (JValue.jarr acc.reverse, rest)
    | ',' :: rest =>
      match parseJValue fuel rest with
      | some (v, r1) => parseJItemsTail fuel r1 (v :: acc)
      | none => none
    | _ => none

/-- Object members after the opening brace. -/
def parseJFields : Nat → List Char → Option (JValue × List Char)
  | 0, _ => none
  | fuel + 1, l =>
    match skipWs l with
    | '\x7d' :: rest => some (JValue.jobj [], rest)
    | '"' :: rest =>
      match parseJString rest with
      | some (k, r1) => parseJFieldValue fuel ⟨k⟩ r1 []
      | none => none
    | _ => none

def parseJFieldValue (fuel : Nat) (k : String) (l : List Char)
    (acc : List (String × JValue)) : Option (JValue × List Char) :=
  match fuel with
  | 0 => none
  | fuel + 1 =>
    match skipWs l with
    | ':' :: rest =>
      match parseJValue fuel rest with
      | some (v, r1) => parseJFieldsTail fuel r1 ((k, v) :: acc)
      | none => none
    | _ => none

def parseJFieldsTail : Nat → List Char → List (String × JValue) →
    Option (JValue × List Char)
  | 0, _, _ => none
  | fuel + 1, l, acc =>
    match skipWs l with
    | '\x7d' :: rest => some (JValue.jobj acc.reverse, rest)
    | ',' :: rest =>
      match skipWs rest with
      | '"' :: r1 =>
        match parseJString r1 with
        | some (k, r2) => parseJFieldValue fuel ⟨k⟩ r2 acc
        | none => none
      | _ => none
    | _ => none

end

/-- `json.loads(s)`: parse one value, then require only whitespace to
remain. -/
def jsonLoads (s : String) : Option JValue :=
  match parseJValue (s.data.length + 1) s.data with
  | some (v, rest) => if (skipWs rest).isEmpty then some v else none
  | none => none

/-! ## Python `str()` and `int()` -/

/-- `repr` of a string: quoted with simple escapes (backslash, quote
and the common control characters; Python's further escaping of other
control and non-printable characters is outside the model, and no code
path of the program reaches it). -/
def pyReprStr (s : String) : String :=
  "\x27" ++ ⟨s.data.foldr (fun c acc =>
    (if c = '\\' then ['\\', '\\']
     else if c = '\x27' then ['\\', '\x27']
     else if c = '\n' then ['\\', 'n']
     else if c = '\r' then ['\\', 'r']
     else if c = '\t' then ['\\', 't']
     else [c]) ++ acc) []⟩ ++ "\x27"

mutual

/-- Python `repr` of a decoded JSON value (used by `str()` on lists
and dicts). -/
def pyRepr : JValue → String
  | JValue.jstr s => pyReprStr s
  | JValue.jnum n => toString n
  | JValue.jbool true => "True"
  | JValue.jbool false => "False"
  | JValue.jnull => "None"
  | JValue.jarr items => "[" ++ pyReprItems items ++ "]"
  | JValue.jobj fields => "\x7b" ++ pyReprFields fields ++ "\x7d"

def pyReprItems : List JValue → String
  | [] => ""
  | v :: rest => pyRepr v ++ (if rest.isEmpty then "" else ", ") ++ pyReprItems rest

def pyReprFields : List (String × JValue) → String
  | [] => ""
  | (k, v) :: rest =>
    pyReprStr k ++ ": " ++ pyRepr v ++ (if rest.isEmpty then "" else ", ")
      ++ pyReprFields rest

end

/-- Python `str()` applied to a decoded JSON value: identity on
strings, decimal on ints, `True`/`False`/`None` on the constants,
`repr` on containers. -/
def pyStr : JValue → String
  | JValue.jstr s => s
  | v => pyRepr v

/-- Digit run of a Python `int()` literal: digits with single
underscores allowed between digits (`int("1_0") == 10`, while a
leading, trailing or doubled underscore raises `ValueError`). -/
def parsePyDigits (acc : Nat) : List Char → Option Nat
  | [] => some acc
  | '_' :: c :: rest =>
    match digitVal c with
    | some v => parsePyDigits (acc * 10 + v) rest
    | none => none
  | c :: rest =>
    match digitVal c with
    | some v => parsePyDigits (acc * 10 + v) rest
    | none => none

/-- Python `int(s)` for ASCII decimal strings: strip whitespace, then
an optional sign and a nonempty digit run; `none` models
`ValueError`. -/
def pyInt (s : String) : Option Int :=
  match (pyStrip s).data with
  | [] => none
  | '+' :: rest =>
    match rest with
    | [] => none
    | '_' :: _ => none
    | c :: r2 =>
      match digitVal c with
      | some v => (parsePyDigits v r2).map (fun n => (n : Int))
      | none => none
  | '-' :: rest =>
    match rest with
    | [] => none
    | '_' :: _ => none
    | c :: r2 =>
      match digitVal c with
      | some v => (parsePyDigits v r2).map (fun n => -(n : Int))
      | none => none
  | '_' :: _ => none
  | c :: r2 =>
    match digitVal c with
    | some v => (parsePyDigits v r2).map (fun n => (n : Int))
    | none => none

/-! ## HTTP layer -/

/-- Header access: `self.headers.get(name, default)` compares header
names case-insensitively and returns the first match. -/
def headerFind (headers : List (String × String)) (name : String) : Option String :=
  (headers.find? (fun kv => pyLower kv.1 == pyLower name)).map (fun kv => kv.2)

def headerGet (headers : List (String × String)) (name dflt : String) : String :=
  match headerFind headers name with
  | some v => v
  | none => dflt

/-- `int(self.headers.get("Content-Length", "0") or "0")` with the
surrounding `try/except ValueError: length = 0` (lines 45-48). -/
def contentLength (headers : List (String × String)) : Int :=
  let v := headerGet headers "Content-Length" "0"
  let v2 := if v == "" then "0" else v
  match pyInt v2 with
  | some n => n
  | none => 0

/-- The JSON responses `do_POST` can produce, by source line. -/
inductive Response where
  | invalidJSON
  | bodyNotObject
  | missingFields
  | emptyName
  | storeError (msg : String)
  | success (file : String)
deriving DecidableEq

def Response.status : Response → Nat
  | Response.invalidJSON => 400
  | Response.bodyNotObject => 400
  | Response.missingFields => 400
  | Response.emptyName => 400
  | Response.storeError _ => 500
  | Response.success _ => 200

/-- `json.dumps` of a string: double-quoted, escaping backslash, quote
and the common control characters (escaping of other control and
non-ASCII characters is outside the model). -/
def jsonDumpStr (s : String) : String :=
  "\"" ++ ⟨s.data.foldr (fun c acc =>
    (if c = '\\' then ['\\', '\\']
     else if c = '"' then ['\\', '"']
     else if c = '\n' then ['\\', 'n']
     else if c = '\r' then ['\\', 'r']
     else if c = '\t' then ['\\', 't']
     else [c]) ++ acc) []⟩ ++ "\""

/-- The exact body texts written by `do_POST` (`json.dumps` of the
corresponding dict literals). -/
def Response.toBody : Response → String
  | Response.invalidJSON => "\x7b\"ok\": false, \"error\": \"Invalid JSON body\"\x7d"
  | Response.bodyNotObject => "\x7b\"ok\": false, \"error\": \"JSON body must be an object\"\x7d"
  | Response.missingFields =>
      "\x7b\"ok\": false, \"error\": \"Missing \x27FileName\x27 or \x27Contents\x27\"\x7d"
  | Response.emptyName => "\x7b\"ok\": false, \"error\": \"Empty or invalid FileName\"\x7d"
  | Response.storeError msg => "\x7b\"ok\": false, \"error\": " ++ jsonDumpStr msg ++ "\x7d"
  | Response.success file => "\x7b\"ok\": true, \"file\": " ++ jsonDumpStr file ++ "\x7d"

/-- Lines 85-99 of `do_POST`, after a sanitized name is in hand: write
the entry file, then rebuild the index, answering 500 on a raised
`OSError`.  I/O failures are injected through `entryErr`/`indexErr`
(`some msg` makes the corresponding write raise with message `msg`); a
failed write leaves the directory unchanged (the spec's atomicity
assumption for a whole-file overwrite). -/
def storeRequest (d : DirState) (safeName contents : String)
    (entryErr indexErr : Option String) : Response × DirState :=
  match entryErr with
  | some e => (Response.storeError e, d)
  | none =>
    let d1 := writeFile d safeName contents
    match indexErr with
    | some e => (Response.storeError e, d1)
    | none => (Response.success safeName, write_all_scene_names d1)

/-- The Entry Store success path (lines 89-92): write the entry file,
then rebuild the index. -/
def store (d : DirState) (name content : String) : DirState :=
  write_all_scene_names (writeFile d name content)

/-- `base_dir / child` for POSIX `pathlib` paths: a relative child is
appended to the base as components; an absolute child replaces the
base. Sanitized names contain no separator, so they are a single
relative component. -/
def pathJoin (base child : String) : String :=
  if child.data.head? = some '/' then child else base ++ "/" ++ child

/-- Lines 58-99 of `do_POST`: shape checks on the decoded payload,
`str()` coercion of the two fields, sanitization, then the store. -/
def handlePayload (payload : JValue) (d : DirState)
    (entryErr indexErr : Option String) : Response × DirState :=
  match payload with
  | JValue.jobj fields =>
    match jlookup fields "FileName", jlookup fields "Contents" with
    | some fnv, some ctv =>
      match sanitize (pyStr fnv) with
      | none => (Response.emptyName, d)
      | some safeName => storeRequest d safeName (pyStr ctv) entryErr indexErr
    | _, _ => (Response.missingFields, d)
  | _ => (Response.bodyNotObject, d)

/-- `do_POST` (lines 44-99): Content-Length handling, body read,
`json.loads`, then `handlePayload`.  The body is modelled as the text
on the wire; reading `length` of it takes characters (bytes and
characters coincide for ASCII bodies). -/
def do_POST (headers : List (String × String)) (body : String) (d : DirState)
    (entryErr indexErr : Option String) : Response × DirState :=
  let length := contentLength headers
  let raw := if 0 < length then ⟨body.data.take length.toNat⟩ else ""
  match jsonLoads raw with
  | none => (Response.invalidJSON, d)
  | some payload => handlePayload payload d entryErr indexErr

/-! ## Index maintainer loop (`_invariant_loop`, lines 117-124)

One iteration checks the stop event, then rebuilds inside
`try/except` (a raised rebuild is caught and leaves the directory as
it was), then waits for the next tick.  `stop k` is whether the stop
event is set when iteration `k` checks it, `fail k` whether that
iteration's rebuild raises. -/

inductive LoopStatus where
  | running (d : DirState)
  | stopped (d : DirState)
deriving DecidableEq

def LoopStatus.isRunning : LoopStatus → Bool
  | LoopStatus.running _ => true
  | LoopStatus.stopped _ => false

def loopStep (stopSet failNow : Bool) (d : DirState) : LoopStatus :=
  if stopSet then LoopStatus.stopped d
  else LoopStatus.running (if failNow then d else write_all_scene_names d)

/-- State of `_invariant_loop` after `n` iterations. -/
def loopRun (stop fail : Nat → Bool) (d : DirState) : Nat → LoopStatus
  | 0 => LoopStatus.running d
  | n + 1 =>
    match loopRun stop fail d n with
    | LoopStatus.stopped e => LoopStatus.stopped e
    | LoopStatus.running e => loopStep (stop n) (fail n) e

/-- A stop signal that never arrives. -/
def neverStop : Nat → Bool := fun _ => false

/-- A rebuild that raises on every tick. -/
def alwaysFail : Nat → Bool := fun _ => true

/-! ## Lemmas: the executable string order agrees with `≤` -/

theorem strLeB_total (a : List Char) : ∀ b, strLeB a b = true ∨ strLeB b a = true := by
  induction a with
  | nil => intro b; cases b <;> simp [strLeB]
  | cons c cs ih =>
    intro b
    cases b with
    | nil => simp [strLeB]
    | cons d ds =>
      by_cases h : c = d
      · subst h; simpa [strLeB] using ih ds
      · rcases lt_or_gt_of_ne h with hlt | hgt
        · left; simp [strLeB, h, hlt]
        · right
          have hdc : d ≠ c := fun hdc => h hdc.symm
          simp [strLeB, hdc, hgt]

theorem strLeB_trans :
    ∀ a b c : List Char, strLeB a b = true → strLeB b c = true → strLeB a c = true := by
  intro a
  induction a with
  | nil => intro b c _ _; cases c <;> simp [strLeB]
  | cons x xs ih =>
    intro b c hab hbc
    cases b with
    | nil => simp [strLeB] at hab
    | cons y ys =>
      cases c with
      | nil => simp [strLeB] at hbc
      | cons z zs =>
        simp only [strLeB] at hab hbc ⊢
        by_cases hxy : x = y
        · subst hxy
          rw [if_pos rfl] at hab
          by_cases hxz : x = z
          · subst hxz
            rw [if_pos rfl] at hbc ⊢
            exact ih ys zs hab hbc
          · rw [if_neg hxz] at hbc ⊢
            exact hbc
        · rw [if_neg hxy, decide_eq_true_eq] at hab
          by_cases hyz : y = z
          · subst hyz
            rw [if_neg hxy, decide_eq_true_eq]
            exact hab
          · rw [if_neg hyz, decide_eq_true_eq] at hbc
            have hxz : x < z := lt_trans hab hbc
            rw [if_neg (ne_of_lt hxz), decide_eq_true_eq]
            exact hxz

instance : IsTotal String strLe :=
  ⟨fun a b => strLeB_total a.data b.data⟩

instance : IsTrans String strLe :=
  ⟨fun a b c => strLeB_trans a.data b.data c.data⟩

theorem strLeB_iff_not_lex (a : List Char) :
    ∀ b, strLeB a b = true ↔ ¬ List.Lex (fun x y : Char => x < y) b a := by
  induction a with
  | nil =>
    intro b
    cases b with
    | nil => exact iff_of_true rfl (List.Lex.not_nil_right _ _)
    | cons d ds => exact iff_of_true rfl (List.Lex.not_nil_right _ _)
  | cons x xs ih =>
    intro b
    cases b with
    | nil =>
      apply iff_of_false
      · simp [strLeB]
      · intro hno; exact hno List.Lex.nil
    | cons y ys =>
      by_cases hxy : x = y
      · subst hxy
        rw [show strLeB (x :: xs) (x :: ys) = strLeB xs ys from by simp [strLeB]]
        rw [ih ys]
        exact (not_congr List.Lex.cons_iff).symm
      · have hlex : List.Lex (fun p q : Char => p < q) (y :: ys) (x :: xs) ↔ y < x := by
          constructor
          · intro h
            cases h with
            | cons h2 => exact absurd rfl hxy
            | rel h2 => exact h2
          · intro h
            exact List.Lex.rel h
        rw [show strLeB (x :: xs) (y :: ys) = decide (x < y) from by simp [strLeB, hxy]]
        rw [hlex, decide_eq_true_eq, not_lt]
        exact ⟨le_of_lt, fun h => lt_of_le_of_ne h hxy⟩

/-- The executable comparison used by `list_all_files` is the
lexicographic `≤` on strings. -/
theorem strLe_iff_le (a b : String) : strLe a b ↔ a ≤ b := by
  rw [String.le_iff_toList_le, ← not_lt]
  exact strLeB_iff_not_lex a.data b.data

/-! ## Lemmas: directory writes and the index filter -/

theorem map_eq_self_of_mem {α : Type} {f : α → α} :
    ∀ {l : List α}, (∀ a ∈ l, f a = a) → l.map f = l := by
  intro l
  induction l with
  | nil => intro _; rfl
  | cons a rest ih =>
    intro h
    simp only [List.map_cons]
    rw [h a (List.mem_cons_self a rest), ih (fun b hb => h b (List.mem_cons_of_mem a hb))]

theorem map_congr_of_mem {α β : Type} {f g : α → β} :
    ∀ {l : List α}, (∀ a ∈ l, f a = g a) → l.map f = l.map g := by
  intro l
  induction l with
  | nil => intro _; rfl
  | cons a rest ih =>
    intro h
    simp only [List.map_cons]
    rw [h a (List.mem_cons_self a rest), ih (fun b hb => h b (List.mem_cons_of_mem a hb))]

theorem find?_cons_pos {α : Type} (p : α → Bool) (a : α) (l : List α) (h : p a = true) :
    List.find? p (a :: l) = some a :=
  List.find?_cons_of_pos l h

theorem find?_cons_neg {α : Type} (p : α → Bool) (a : α) (l : List α) (h : p a = false) :
    List.find? p (a :: l) = List.find? p l :=
  List.find?_cons_of_neg l (by simp [h])

/-- The index entry never passes the `list_all_files` filter. -/
theorem sceneFilter_index (c : String) :
    sceneFilter ⟨"index.txt", FKind.file, c⟩ = false := by
  simp [sceneFilter]

/-- Overwriting `index.txt` does not change the filtered entry list. -/
theorem filter_writeFile_index (d : DirState) (c : String) :
    (writeFile d "index.txt" c).filter sceneFilter = d.filter sceneFilter := by
  unfold writeFile
  by_cases h : d.any (fun e => e.name == "index.txt") = true
  · rw [if_pos h]
    clear h
    induction d with
    | nil => rfl
    | cons e rest ih =>
      by_cases he : e.name = "index.txt"
      · have h1 : sceneFilter e = false := by
          simp [sceneFilter, he]
        have hbeq : (e.name == "index.txt") = true := by simp [he]
        simp only [List.map_cons, hbeq, if_pos, List.filter_cons, h1, sceneFilter_index,
          Bool.false_eq_true, if_false, ite_true]
        exact ih
      · have hbeq : (e.name == "index.txt") = false := by simp [he]
        simp only [List.map_cons, hbeq, Bool.false_eq_true, if_false, List.filter_cons]
        rw [ih]
  · rw [if_neg h, List.filter_append]
    simp [sceneFilter_index]

theorem list_all_files_writeFile_index (d : DirState) (c : String) :
    list_all_files (writeFile d "index.txt" c) = list_all_files d := by
  unfold list_all_files
  rw [filter_writeFile_index]

/-- After `write_all_scene_names`, the listing is the one that was
computed from the directory being written. -/
theorem list_all_files_write_all (d : DirState) :
    list_all_files (write_all_scene_names d) = list_all_files d :=
  list_all_files_writeFile_index d _

theorem readFile_writeFile_self (d : DirState) (n c : String) :
    readFile (writeFile d n c) n = some c := by
  unfold writeFile readFile
  by_cases h : d.any (fun e => e.name == n) = true
  · rw [if_pos h]
    induction d with
    | nil => simp at h
    | cons e rest ih =>
      by_cases he : e.name = n
      · have hbeq : (e.name == n) = true := by simp [he]
        have hfe : (if (e.name == n) = true then (⟨n, FKind.file, c⟩ : FSEntry) else e)
            = ⟨n, FKind.file, c⟩ := if_pos hbeq
        simp only [List.map_cons, hfe]
        rw [find?_cons_pos (fun x : FSEntry => x.name == n) _ _ (by simp)]
        rfl
      · have hbeq : (e.name == n) = false := by simp [he]
        have hfe : (if (e.name == n) = true then (⟨n, FKind.file, c⟩ : FSEntry) else e) = e := by
          rw [hbeq]
          simp
        simp only [List.any_cons, hbeq, Bool.false_or] at h
        simp only [List.map_cons, hfe]
        rw [find?_cons_neg (fun x : FSEntry => x.name == n) _ _ hbeq]
        exact ih h
  · rw [if_neg h]
    induction d with
    | nil =>
      simp only [List.nil_append]
      rw [find?_cons_pos (fun x : FSEntry => x.name == n) _ _ (by simp)]
      rfl
    | cons e rest ih =>
      simp only [List.any_cons, Bool.or_eq_true] at h
      push_neg at h
      have hbeq : (e.name == n) = false := by
        cases hy : (e.name == n) with
        | true => exact absurd hy h.1
        | false => rfl
      simp only [List.cons_append]
      rw [find?_cons_neg (fun x : FSEntry => x.name == n) _ _ hbeq]
      exact ih (by simpa using h.2)

theorem readFile_writeFile_ne (d : DirState) (m c n : String) (h : n ≠ m) :
    readFile (writeFile d m c) n = readFile d n := by
  have hmn : ((⟨m, FKind.file, c⟩ : FSEntry).name == n) = false := by
    simp
    exact fun hx => h hx.symm
  unfold writeFile readFile
  by_cases hany : d.any (fun e => e.name == m) = true
  · rw [if_pos hany]
    clear hany
    induction d with
    | nil => rfl
    | cons e rest ih =>
      by_cases he : e.name = m
      · have hbeq : (e.name == m) = true := by simp [he]
        have hfe : (if (e.name == m) = true then (⟨m, FKind.file, c⟩ : FSEntry) else e)
            = ⟨m, FKind.file, c⟩ := if_pos hbeq
        have hen : (e.name == n) = false := by
          simp [he]
          exact fun hx => h hx.symm
        simp only [List.map_cons, hfe]
        rw [find?_cons_neg (fun x : FSEntry => x.name == n) _ _ hmn,
          find?_cons_neg (fun x : FSEntry => x.name == n) _ _ hen]
        exact ih
      · have hbeq : (e.name == m) = false := by simp [he]
        have hfe : (if (e.name == m) = true then (⟨m, FKind.file, c⟩ : FSEntry) else e) = e := by
          rw [hbeq]
          simp
        simp only [List.map_cons, hfe]
        cases hx : (e.name == n) with
        | true =>
          rw [find?_cons_pos (fun x : FSEntry => x.name == n) _ _ hx,
            find?_cons_pos (fun x : FSEntry => x.name == n) _ _ hx]
        | false =>
          rw [find?_cons_neg (fun x : FSEntry => x.name == n) _ _ hx,
            find?_cons_neg (fun x : FSEntry => x.name == n) _ _ hx]
          exact ih
  · rw [if_neg hany]
    induction d with
    | nil =>
      simp only [List.nil_append]
      rw [find?_cons_neg (fun x : FSEntry => x.name == n) _ _ hmn]
    | cons e rest ih =>
      simp only [List.any_cons, Bool.or_eq_true] at hany
      push_neg at hany
      simp only [List.cons_append]
      cases hx : (e.name == n) with
      | true =>
        rw [find?_cons_pos (fun x : FSEntry => x.name == n) _ _ hx,
          find?_cons_pos (fun x : FSEntry => x.name == n) _ _ hx]
      | false =>
        rw [find?_cons_neg (fun x : FSEntry => x.name == n) _ _ hx,
          find?_cons_neg (fun x : FSEntry => x.name == n) _ _ hx]
        exact ih (by simpa using hany.2)

theorem writeFile_writeFile_same (d : DirState) (n c c2 : String) :
    writeFile (writeFile d n c) n c2 = writeFile d n c2 := by
  unfold writeFile
  by_cases h : d.any (fun e => e.name == n) = true
  · rw [if_pos h, if_pos h]
    rcases List.any_eq_true.mp h with ⟨w, hw, hwn⟩
    have h2 : (d.map (fun e => if e.name == n then (⟨n, FKind.file, c⟩ : FSEntry) else e)).any
        (fun e => e.name == n) = true := by
      refine List.any_eq_true.mpr ⟨⟨n, FKind.file, c⟩, ?_, by simp⟩
      refine List.mem_map.mpr ⟨w, hw, ?_⟩
      rw [if_pos hwn]
    rw [if_pos h2, List.map_map]
    apply map_congr_of_mem
    intro e _
    by_cases he : e.name = n
    · have hbeq : (e.name == n) = true := by simp [he]
      simp [Function.comp, hbeq]
    · have hbeq : (e.name == n) = false := by simp [he]
      simp [Function.comp, hbeq]
  · rw [if_neg h, if_neg h]
    have h2 : ((d ++ [(⟨n, FKind.file, c⟩ : FSEntry)]).any (fun e => e.name == n)) = true := by
      simp
    rw [if_pos h2, List.map_append]
    have hmapd : d.map (fun e => if e.name == n then (⟨n, FKind.file, c2⟩ : FSEntry) else e) = d := by
      apply map_eq_self_of_mem
      intro e he
      have : (e.name == n) = false := by
        by_contra hx
        have : (e.name == n) = true := by
          cases hy : (e.name == n) with
          | true => rfl
          | false => exact absurd hy hx
        exact h (List.any_eq_true.mpr ⟨e, he, this⟩)
      simp [this]
    rw [hmapd]
    simp

/-- Every entry of `writeFile d n c` named `n` is the written entry. -/
theorem writeFile_named_eq (d : DirState) (n c : String) :
    ∀ e ∈ writeFile d n c, e.name = n → e = ⟨n, FKind.file, c⟩ := by
  unfold writeFile
  by_cases h : d.any (fun e => e.name == n) = true
  · rw [if_pos h]
    intro e he hen
    rcases List.mem_map.mp he with ⟨w, _, hw⟩
    by_cases hwn : w.name = n
    · have : (w.name == n) = true := by simp [hwn]
      rw [this] at hw
      simp at hw
      exact hw.symm
    · have : (w.name == n) = false := by simp [hwn]
      rw [this] at hw
      simp at hw
      rw [← hw] at hen
      exact absurd hen hwn
  · rw [if_neg h]
    intro e he hen
    rcases List.mem_append.mp he with hd | hlast
    · exfalso
      apply h
      exact List.any_eq_true.mpr ⟨e, hd, by simp [hen]⟩
    · simpa using hlast

/-- `writeFile` guarantees an entry with the written name exists. -/
theorem writeFile_named_mem (d : DirState) (n c : String) :
    ∃ e ∈ writeFile d n c, e.name = n := by
  unfold writeFile
  by_cases h : d.any (fun e => e.name == n) = true
  · rw [if_pos h]
    rcases List.any_eq_true.mp h with ⟨w, hw, hwn⟩
    refine ⟨⟨n, FKind.file, c⟩, ?_, rfl⟩
    refine List.mem_map.mpr ⟨w, hw, ?_⟩
    rw [if_pos hwn]
  · rw [if_neg h]
    exact ⟨⟨n, FKind.file, c⟩, by simp, rfl⟩

/-- Writing a different name preserves the shape of the entries named
`n`. -/
theorem writeFile_keep_named (d : DirState) (m c n : String) (h : n ≠ m)
    (E : FSEntry) (hall : ∀ e ∈ d, e.name = n → e = E) :
    ∀ e ∈ writeFile d m c, e.name = n → e = E := by
  unfold writeFile
  by_cases hany : d.any (fun e => e.name == m) = true
  · rw [if_pos hany]
    intro e he hen
    rcases List.mem_map.mp he with ⟨w, hwmem, hw⟩
    by_cases hwm : w.name = m
    · have : (w.name == m) = true := by simp [hwm]
      rw [this] at hw
      simp at hw
      rw [← hw] at hen
      exact absurd hen.symm (by simpa using h)
    · have : (w.name == m) = false := by simp [hwm]
      rw [this] at hw
      simp at hw
      rw [← hw] at hen ⊢
      exact hall w hwmem hen
  · rw [if_neg hany]
    intro e he hen
    rcases List.mem_append.mp he with hd | hlast
    · exact hall e hd hen
    · exfalso
      simp at hlast
      rw [hlast] at hen
      exact h hen.symm

theorem writeFile_keep_mem (d : DirState) (m c n : String)
    (h2 : ∃ e ∈ d, e.name = n) : ∃ e ∈ writeFile d m c, e.name = n := by
  rcases h2 with ⟨e, he, hen⟩
  unfold writeFile
  by_cases hany : d.any (fun x => x.name == m) = true
  · rw [if_pos hany]
    by_cases hem : e.name = m
    · refine ⟨⟨m, FKind.file, c⟩, ?_, by rw [← hem, hen]⟩
      refine List.mem_map.mpr ⟨e, he, ?_⟩
      have : (e.name == m) = true := by simp [hem]
      rw [this]
      simp
    · refine ⟨e, ?_, hen⟩
      refine List.mem_map.mpr ⟨e, he, ?_⟩
      have : (e.name == m) = false := by simp [hem]
      rw [this]
      simp
  · rw [if_neg hany]
    exact ⟨e, List.mem_append.mpr (Or.inl he), hen⟩

/-- A write that recreates exactly the entries already present is the
identity. -/
theorem writeFile_eq_self (d : DirState) (n c : String)
    (h1 : ∃ e ∈ d, e.name = n)
    (h2 : ∀ e ∈ d, e.name = n → e = ⟨n, FKind.file, c⟩) :
    writeFile d n c = d := by
  unfold writeFile
  rcases h1 with ⟨w, hw, hwn⟩
  have hany : d.any (fun e => e.name == n) = true :=
    List.any_eq_true.mpr ⟨w, hw, by simp [hwn]⟩
  rw [if_pos hany]
  apply map_eq_self_of_mem
  intro e he
  by_cases hen : e.name = n
  · have : (e.name == n) = true := by simp [hen]
    rw [this]
    simp
    exact (h2 e he hen).symm
  · have : (e.name == n) = false := by simp [hen]
    rw [this]
    simp

/-! ## Lemmas: the sanitizer -/

theorem data_append (s t : String) : (s ++ t).data = s.data ++ t.data :=
  rfl

theorem allowedChar_reSub (s : String) : ∀ c ∈ (reSub s).data, allowedChar c = true := by
  intro c hc
  have hc2 : c ∈ s.data.map (fun c => if allowedChar c then c else '_') := hc
  rcases List.mem_map.mp hc2 with ⟨c0, _, hmap⟩
  rw [← hmap]
  cases hb : allowedChar c0 with
  | true => simp [hb]
  | false =>
    simp only [hb, Bool.false_eq_true, if_false]
    decide

theorem mem_pyStrip (s : String) : ∀ c ∈ (pyStrip s).data, c ∈ s.data := by
  intro c hc
  have hc2 : c ∈ (((s.data.dropWhile pyIsSpace).reverse.dropWhile pyIsSpace).reverse
      : List Char) := hc
  rw [List.mem_reverse] at hc2
  have hc3 := (List.dropWhile_sublist pyIsSpace).subset hc2
  rw [List.mem_reverse] at hc3
  exact (List.dropWhile_sublist pyIsSpace).subset hc3

theorem allowedChar_replaceSeps (s : String) (h : ∀ c ∈ s.data, allowedChar c = true) :
    ∀ c ∈ (replaceSeps s).data, allowedChar c = true := by
  intro c hc
  have hc2 : c ∈ s.data.map
      (fun c => if c == '/' then '_' else if c == '\\' then '_' else c) := hc
  rcases List.mem_map.mp hc2 with ⟨c0, hc0, hmap⟩
  rw [← hmap]
  by_cases h1 : (c0 == '/') = true
  · rw [h1]
    simp
    decide
  · rw [Bool.not_eq_true] at h1
    rw [h1]
    simp only [Bool.false_eq_true, if_false]
    by_cases h2 : (c0 == '\\') = true
    · rw [h2]
      simp
      decide
    · rw [Bool.not_eq_true] at h2
      rw [h2]
      simp only [Bool.false_eq_true, if_false]
      exact h c0 hc0

theorem sanitize_chars (s : String) :
    ∀ c ∈ (replaceSeps (pyStrip (reSub s))).data, allowedChar c = true :=
  allowedChar_replaceSeps _ (fun c hc => allowedChar_reSub s c (mem_pyStrip _ c hc))

theorem sanitize_none_iff (s : String) :
    sanitize s = none ↔ pyStrip (reSub s) = "" := by
  unfold sanitize
  by_cases h : (replaceSeps (pyStrip (reSub s))).data.isEmpty = true
  · rw [if_pos h]
    simp only [true_iff]
    rw [List.isEmpty_iff] at h
    have h2 : (pyStrip (reSub s)).data.map
        (fun c => if c == '/' then '_' else if c == '\\' then '_' else c) = [] := h
    rw [List.map_eq_nil_iff] at h2
    rw [← String.toList_inj]
    exact h2
  · rw [if_neg h]
    simp only [reduceCtorEq, false_iff]
    intro hempty
    apply h
    have : (pyStrip (reSub s)).data = [] := by
      rw [hempty]
    have h2 : (replaceSeps (pyStrip (reSub s))).data = (pyStrip (reSub s)).data.map
        (fun c => if c == '/' then '_' else if c == '\\' then '_' else c) := rfl
    rw [List.isEmpty_iff, h2, this]
    rfl

theorem sanitize_some_parts (s r : String) (h : sanitize s = some r) :
    r.data ≠ [] ∧ (∀ c ∈ r.data, allowedChar c = true) ∧ pyEndsWith r ".txt" = true := by
  unfold sanitize at h
  by_cases hemp : (replaceSeps (pyStrip (reSub s))).data.isEmpty = true
  · rw [if_pos hemp] at h
    exact absurd h (by simp)
  · rw [if_neg hemp] at h
    simp only [Option.some.injEq] at h
    have hne : (replaceSeps (pyStrip (reSub s))).data ≠ [] := by
      intro hx
      apply hemp
      rw [List.isEmpty_iff]
      exact hx
    have hch := sanitize_chars s
    by_cases hend : pyEndsWith (replaceSeps (pyStrip (reSub s))) ".txt" = true
    · rw [if_pos hend] at h
      rw [← h]
      exact ⟨hne, hch, hend⟩
    · rw [if_neg hend] at h
      rw [← h]
      refine ⟨?_, ?_, ?_⟩
      · rw [data_append]
        simp [hne]
      · intro c hc
        rw [data_append] at hc
        rcases List.mem_append.mp hc with h1 | h1
        · exact hch c h1
        · have htxt : ∀ c2 ∈ (".txt" : String).data, allowedChar c2 = true := by decide
          exact htxt c h1
      · unfold pyEndsWith
        rw [data_append]
        rw [List.isSuffixOf_iff_suffix]
        exact ⟨(replaceSeps (pyStrip (reSub s))).data, rfl⟩

theorem length_of_endsWithTxt (r : String) (h : pyEndsWith r ".txt" = true) :
    4 ≤ r.data.length := by
  unfold pyEndsWith at h
  rw [List.isSuffixOf_iff_suffix] at h
  rcases h with ⟨t, ht⟩
  rw [← ht]
  simp

/-- C3: sanitization totality.  For every input, `sanitize` either
rejects, exactly when substituting disallowed characters and trimming
whitespace leaves the empty string, or yields a non-empty name made
only of allowed characters and ending in `".txt"`. -/
theorem sanitize_totality (s : String) :
    (sanitize s = none ↔ pyStrip (reSub s) = "") ∧
    ∀ r, sanitize s = some r →
      r ≠ "" ∧ r.data.all allowedChar = true ∧ pyEndsWith r ".txt" = true := by
  refine ⟨sanitize_none_iff s, ?_⟩
  intro r h
  rcases sanitize_some_parts s r h with ⟨h1, h2, h3⟩
  refine ⟨?_, ?_, h3⟩
  · intro hx
    apply h1
    rw [hx]
  · rw [List.all_eq_true]
    exact h2

/-- Witness for C3 at the concrete input `"a/b"`, whose sanitized
form is `"a_b.txt"`. -/
theorem sanitize_totality_witness :
    ("a_b.txt" : String) ≠ "" ∧ ("a_b.txt" : String).data.all allowedChar = true
      ∧ pyEndsWith "a_b.txt" ".txt" = true :=
  (sanitize_totality "a/b").2 "a_b.txt" (by decide)

/-- C7: the concrete sanitization cases fixed by the spec, including
the case-sensitive suffix quirk and the path-traversal neutralization. -/
theorem sanitize_concrete_cases :
    sanitize "a/b" = some "a_b.txt" ∧ sanitize "  " = none ∧
    sanitize "data.txt" = some "data.txt" ∧
    sanitize "data.TXT" = some "data.TXT.txt" ∧
    sanitize "../../etc/passwd" = some ".._.._etc_passwd.txt" := by
  decide

/-- C8: an accepted sanitized name joins under the base directory as a
single relative component: it contains no path separator, is not a dot
directory, and `base / name` is exactly `base ++ "/" ++ name`. -/
theorem sanitized_name_stays_inside (base s r : String) (h : sanitize s = some r) :
    pathJoin base r = base ++ "/" ++ r ∧
    r.data.all (fun c => !(c == '/') && !(c == '\\')) = true ∧
    r ≠ "." ∧ r ≠ ".." := by
  rcases sanitize_some_parts s r h with ⟨h1, h2, h3⟩
  have hsep : ∀ c ∈ r.data, (!(c == '/') && !(c == '\\')) = true := by
    intro c hc
    have hall := h2 c hc
    by_cases hx : c = '/'
    · rw [hx] at hall
      exact absurd hall (by decide)
    · by_cases hy : c = '\\'
      · rw [hy] at hall
        exact absurd hall (by decide)
      · simp [hx, hy]
  have hlen := length_of_endsWithTxt r h3
  refine ⟨?_, ?_, ?_, ?_⟩
  · unfold pathJoin
    cases hd : r.data with
    | nil => exact absurd hd h1
    | cons c rest =>
      have hcmem : c ∈ r.data := by
        rw [hd]
        exact List.mem_cons_self c rest
      have := hsep c hcmem
      have hcslash : c ≠ '/' := by
        intro hx
        rw [hx] at this
        exact absurd this (by decide)
      rw [if_neg (by simp [hcslash])]
  · rw [List.all_eq_true]
    exact hsep
  · intro hx
    rw [hx] at hlen
    exact absurd hlen (by decide)
  · intro hx
    rw [hx] at hlen
    exact absurd hlen (by decide)

/-- Witness for C8 at the path-traversal input of the spec. -/
theorem sanitized_name_stays_inside_witness :
    pathJoin "/srv/scenes" ".._.._etc_passwd.txt"
        = "/srv/scenes" ++ "/" ++ ".._.._etc_passwd.txt" ∧
    (".._.._etc_passwd.txt" : String).data.all
        (fun c => !(c == '/') && !(c == '\\')) = true ∧
    (".._.._etc_passwd.txt" : String) ≠ "." ∧
    (".._.._etc_passwd.txt" : String) ≠ ".." :=
  sanitized_name_stays_inside "/srv/scenes" "../../etc/passwd" ".._.._etc_passwd.txt"
    (by decide)

/-- C1: after a completed rebuild, the content of `index.txt` is the
`list_all_files` listing of the resulting directory joined by
newlines, with a trailing newline exactly when the listing is
non-empty. -/
theorem index_matches_listing (d : DirState) :
    readFile (write_all_scene_names d) "index.txt"
      = some (String.intercalate "\n" (list_all_files (write_all_scene_names d))
          ++ (if (list_all_files (write_all_scene_names d)).isEmpty then "" else "\n")) := by
  have h1 : readFile (write_all_scene_names d) "index.txt"
      = some (indexContent (list_all_files d)) := readFile_writeFile_self d _ _
  rw [h1, list_all_files_write_all]
  rfl

/-- C2: `list_all_files` lists exactly the stems of the immediate
regular files whose extension is `".txt"` up to case, the literal
`index.txt` excluded, sorted in lexicographic order. -/
theorem list_all_files_characterization (d : DirState) :
    List.Sorted (fun a b : String => a ≤ b) (list_all_files d) ∧
    ∀ x, x ∈ list_all_files d ↔
      ∃ e, e ∈ d ∧ e.kind = FKind.file ∧ pyLower (pySuffix e.name) = ".txt"
        ∧ e.name ≠ "index.txt" ∧ x = pyStem e.name := by
  constructor
  · have hs : List.Sorted strLe (list_all_files d) :=
      List.sorted_insertionSort strLe _
    exact List.Pairwise.imp (fun h => (strLe_iff_le _ _).mp h) hs
  · intro x
    unfold list_all_files
    rw [List.mem_insertionSort, List.mem_map]
    constructor
    · rintro ⟨e, he, hx⟩
      rw [List.mem_filter] at he
      have hf := he.2
      unfold sceneFilter at hf
      simp only [Bool.and_eq_true, decide_eq_true_eq, beq_iff_eq,
        Bool.not_eq_true'] at hf
      exact ⟨e, he.1, hf.1.1, hf.1.2, by simpa using hf.2, hx.symm⟩
    · rintro ⟨e, hed, hk, hsuf, hname, hx⟩
      refine ⟨e, ?_, hx.symm⟩
      rw [List.mem_filter]
      refine ⟨hed, ?_⟩
      unfold sceneFilter
      simp [hk, hsuf, hname]

/-! ## Lemmas and claims: the Entry Store -/

/-- C5: when the entry write succeeds and the index overwrite raises,
the request is answered 500 with the error body, while the entry file
stays on disk with the written content. -/
theorem store_partial_failure (d : DirState) (safeName contents errMsg : String) :
    storeRequest d safeName contents none (some errMsg)
      = (Response.storeError errMsg, writeFile d safeName contents)
    ∧ Response.status (Response.storeError errMsg) = 500
    ∧ readFile (writeFile d safeName contents) safeName = some contents :=
  ⟨rfl, rfl, readFile_writeFile_self d safeName contents⟩

theorem store_store_self (d : DirState) (n c : String) :
    store (store d n c) n c = store d n c := by
  by_cases hn : n = "index.txt"
  · subst hn
    unfold store write_all_scene_names
    simp only [list_all_files_writeFile_index, writeFile_writeFile_same]
  · unfold store write_all_scene_names
    have hself : writeFile (writeFile (writeFile d n c) "index.txt"
        (indexContent (list_all_files (writeFile d n c)))) n c
        = writeFile (writeFile d n c) "index.txt"
            (indexContent (list_all_files (writeFile d n c))) := by
      apply writeFile_eq_self
      · exact writeFile_keep_mem _ _ _ _ (writeFile_named_mem d n c)
      · exact writeFile_keep_named _ _ _ _ hn _ (writeFile_named_eq d n c)
    rw [hself, list_all_files_writeFile_index, writeFile_writeFile_same]

theorem store_replace (d : DirState) (n c1 c2 : String) (h : n ≠ "index.txt") :
    readFile (store (store d n c1) n c2) n = some c2 := by
  unfold store write_all_scene_names
  rw [readFile_writeFile_ne _ _ _ _ h, readFile_writeFile_self]

/-- C6 counterexample: `store` with name `index.txt` (the sanitized
form of the raw name `"index"`) does not leave `content2` in the
file — the index rebuild immediately overwrites it (here with the
empty listing). -/
theorem store_replace_index_counterexample :
    readFile (store (store [] "index.txt" "c1") "index.txt" "c2") "index.txt" = some ""
    ∧ readFile (store (store [] "index.txt" "c1") "index.txt" "c2") "index.txt"
        ≠ some "c2" := by
  decide

/-- C6 amended: storing the same pair twice leaves the same directory
(hence the same entry and index contents) as storing it once, for
every name; and a second store of the same name fully replaces the
content, provided the name is not `index.txt` itself. -/
theorem store_idempotent_and_replace (d : DirState) (n c c1 c2 : String) :
    store (store d n c) n c = store d n c ∧
    (n ≠ "index.txt" → readFile (store (store d n c1) n c2) n = some c2) :=
  ⟨store_store_self d n c, store_replace d n c1 c2⟩

/-- Witness for C6 (amended) at a concrete name and contents. -/
theorem store_idempotent_and_replace_witness :
    readFile (store (store [] "a.txt" "c1") "a.txt" "c2") "a.txt" = some "c2" :=
  (store_idempotent_and_replace [] "a.txt" "x" "c1" "c2").2 (by decide)

/-! ## Claims: the request decode (C4) -/

/-- C4 counterexample: a payload whose `FileName` is the number `123`
is not rejected — the handler coerces it with `str()` and stores
`123.txt`, answering 200. -/
theorem nonstring_field_accepted :
    handlePayload
        (JValue.jobj [("FileName", JValue.jnum 123), ("Contents", JValue.jstr "x")])
        [] none none
      = (Response.success "123.txt",
         [⟨"123.txt", FKind.file, "x"⟩, ⟨"index.txt", FKind.file, "123\n"⟩])
    ∧ Response.status (Response.success "123.txt") = 200 := by
  decide

/-- C4 amended: whenever both fields are present, whatever their JSON
types, the handler accepts the request, coercing each value to a
string with Python `str()`; there is no type check at decode time. -/
theorem payload_fields_coerced (fields : List (String × JValue)) (fnv ctv : JValue)
    (d : DirState) (sn : String)
    (h1 : jlookup fields "FileName" = some fnv)
    (h2 : jlookup fields "Contents" = some ctv)
    (h3 : sanitize (pyStr fnv) = some sn) :
    handlePayload (JValue.jobj fields) d none none
      = (Response.success sn, store d sn (pyStr ctv))
    ∧ Response.status (Response.success sn) = 200 := by
  simp only [handlePayload, h1, h2, h3, storeRequest, store]
  exact ⟨trivial, rfl⟩

/-- Witness for C4 (amended): both fields non-strings, coerced to
`"7"` and `"True"`. -/
theorem payload_fields_coerced_witness :
    handlePayload
        (JValue.jobj [("FileName", JValue.jnum 7), ("Contents", JValue.jbool true)])
        [] none none
      = (Response.success "7.txt", store [] "7.txt" "True")
    ∧ Response.status (Response.success "7.txt") = 200 :=
  payload_fields_coerced [("FileName", JValue.jnum 7), ("Contents", JValue.jbool true)]
    (JValue.jnum 7) (JValue.jbool true) [] "7.txt" rfl rfl (by decide)

/-! ## Claim: the maintainer loop (C9) -/

/-- C9: the maintainer loop keeps running through any pattern of
rebuild failures; as long as the stop signal has not been set, the
loop is still running after every number of iterations, so only the
stop signal can end it. -/
theorem invariant_loop_survives_failures (stop fail : Nat → Bool) (d : DirState)
    (n : Nat) (h : ∀ k, k < n → stop k = false) :
    (loopRun stop fail d n).isRunning = true := by
  induction n with
  | zero => rfl
  | succ m ih =>
    have hm : ∀ k, k < m → stop k = false := fun k hk => h k (Nat.lt_succ_of_lt hk)
    have hrun := ih hm
    unfold loopRun
    cases hL : loopRun stop fail d m with
    | stopped e =>
      rw [hL] at hrun
      exact absurd hrun (by simp [LoopStatus.isRunning])
    | running e =>
      have hstop : stop m = false := h m (Nat.lt_succ_self m)
      simp only [loopStep, hstop, Bool.false_eq_true, if_false]
      rfl

/-- Witness for C9: five ticks with every rebuild raising and no stop
signal leave the loop running. -/
theorem invariant_loop_survives_failures_witness :
    (loopRun neverStop alwaysFail [] 5).isRunning = true :=
  invariant_loop_survives_failures neverStop alwaysFail [] 5 (fun _ _ => rfl)

/-! ## Claim: Content-Length handling (C10) -/

/-- C10: a missing, empty, non-numeric or non-positive Content-Length
header makes the handler treat the body as empty, and the request is
answered 400 with the `Invalid JSON body` error. -/
theorem bad_content_length (headers : List (String × String)) (body : String)
    (d : DirState) (entryErr indexErr : Option String)
    (h : headerFind headers "Content-Length" = none
       ∨ headerFind headers "Content-Length" = some ""
       ∨ (∃ v, headerFind headers "Content-Length" = some v ∧ pyInt v = none)
       ∨ (∃ v n, headerFind headers "Content-Length" = some v ∧ pyInt v = some n
            ∧ n ≤ 0)) :
    do_POST headers body d entryErr indexErr = (Response.invalidJSON, d)
    ∧ Response.status Response.invalidJSON = 400
    ∧ Response.toBody Response.invalidJSON
        = "\x7b\"ok\": false, \"error\": \"Invalid JSON body\"\x7d" := by
  have hcl : contentLength headers ≤ 0 := by
    rcases h with h | h | ⟨v, hv, hpi⟩ | ⟨v, n, hv, hpi, hn⟩
    · have hget : headerGet headers "Content-Length" "0" = "0" := by
        unfold headerGet
        rw [h]
      simp only [contentLength, hget]
      decide
    · have hget : headerGet headers "Content-Length" "0" = "" := by
        unfold headerGet
        rw [h]
      simp only [contentLength, hget]
      decide
    · have hget : headerGet headers "Content-Length" "0" = v := by
        unfold headerGet
        rw [hv]
      by_cases hve : v = ""
      · simp only [contentLength, hget, hve]
        decide
      · have hne : (v == "") = false := by simp [hve]
        simp only [contentLength, hget, hne, Bool.false_eq_true, if_false, hpi]
        decide
    · have hget : headerGet headers "Content-Length" "0" = v := by
        unfold headerGet
        rw [hv]
      have hve : v ≠ "" := by
        intro hx
        rw [hx, show pyInt "" = none from by decide] at hpi
        exact Option.noConfusion hpi
      have hne : (v == "") = false := by simp [hve]
      simp only [contentLength, hget, hne, Bool.false_eq_true, if_false, hpi]
      exact hn
  have hraw : ¬ (0 < contentLength headers) := not_lt.mpr hcl
  refine ⟨?_, rfl, rfl⟩
  simp only [do_POST, if_neg hraw]
  rfl

/-- Witness for C10 at a concrete non-numeric header value. -/
theorem bad_content_length_witness :
    do_POST [("Content-Length", "abc")] "\x7b\x7d" [] none none
        = (Response.invalidJSON, [])
    ∧ Response.status Response.invalidJSON = 400
    ∧ Response.toBody Response.invalidJSON
        = "\x7b\"ok\": false, \"error\": \"Invalid JSON body\"\x7d" :=
  bad_content_length [("Content-Length", "abc")] "\x7b\x7d" [] none none
    (Or.inr (Or.inr (Or.inl ⟨"abc", by decide, by decide⟩)))

end SceneFileServer
